import Mathlib

/-!
Verification of the adjoint-gradient / optimizer-loop / design-space core of
this repository against its natural-language specification.  The definitions
below are shallow embeddings of:

* `tidy3d/plugins/design/method.py` (sampling methods, integer forcing),
* `tidy3d/plugins/design/design.py` (the design-space driver),
* `tidy3d/plugins/invdes/optimizer.py` (the resumable optimizer loop),
* `tidy3d/components/autograd/derivative_utils.py` (shape-derivative
  assembly and field interpolation).

Machine floats are modelled by rationals, complex permittivities by an
arbitrary field.  Parts of the repository that the claims depend on but that
are not available as source (`plugins/design/parameter.py`,
`plugins/invdes/result.py`, and the external scipy sampler) are modelled from
the specification and marked as such in their doc comments.
-/

namespace Tidy3d

/-! ## Design plugin: integer forcing (`method.py`, `Method._force_int`) -/

/-- Python `round(q, 0)`: round to the nearest integer, ties to the nearest
even integer (banker's rounding). -/
def pythonRound (q : ℚ) : ℤ :=
  let f := ⌊q⌋
  if q - f < 1/2 then f
  else if 1/2 < q - f then f + 1
  else if f % 2 = 0 then f else f + 1

/-- A design parameter.  Modelled from the spec: `parameter.py` is not under
`src/`; a parameter has a bounded domain (span) and integer parameters carry
an integer span.  Only the data consumed by `Method._force_int` and the
sampling methods is kept: the name, the kind, and the span. -/
inductive DesignParameter where
  | int (name : String) (lo hi : ℤ)
  | float (name : String) (lo hi : ℚ)
deriving DecidableEq

/-- Name of a design parameter. -/
def DesignParameter.pname : DesignParameter → String
  | .int n _ _ => n
  | .float n _ _ => n

/-- Body of the `Method._force_int` loop for one integer parameter with span
`lo..hi` (`method.py` lines 80-91): `new_int = int(round(v, 0))`, then if
`new_int` is below the span it becomes the lower bound, else if above it
becomes the upper bound. -/
def forceIntVal (lo hi : ℤ) (v : ℚ) : ℤ :=
  let newInt := pythonRound v
  if newInt < lo then lo
  else if hi < newInt then hi
  else newInt

/-- `Method._force_int` (`method.py` lines 74-91): update every entry of the
argument dict that is bound to an integer parameter to its rounded and
clamped value; float parameters are left untouched. -/
def forceInt (point : List (String × ℚ)) (parameters : List DesignParameter) :
    List (String × ℚ) :=
  parameters.foldl
    (fun pt param =>
      match param with
      | .int nm lo hi =>
          pt.map (fun kv => if kv.1 = nm then (kv.1, ((forceIntVal lo hi kv.2 : ℤ) : ℚ)) else kv)
      | .float _ _ _ => pt)
    point

/-! ## Design plugin: grid sampling (`method.py`, `MethodGrid.sample`) -/

/-- Row-major Cartesian product of a list of domains: the first domain varies
slowest, the last domain varies fastest. -/
def cartProdRM {α : Type} : List (List α) → List (List α)
  | [] => [[]]
  | d :: ds => d.flatMap (fun v => (cartProdRM ds).map (fun t => v :: t))

/-- Swap the first two entries of a list (identity on shorter lists).  This is
the axis reordering `numpy.meshgrid` performs under its default
`indexing="xy"`. -/
def swap2 {α : Type} : List α → List α
  | a :: b :: rest => b :: a :: rest
  | l => l

/-- `MethodGrid.sample` (`method.py` lines 217-232): each parameter
contributes its discretized domain (`design_var.sample_grid()`, supplied here
as the value list of each pair since `parameter.py` is not under `src/`);
the domains are combined with `np.meshgrid` (default `indexing="xy"`), each
grid is raveled in C order, and the columns are zipped back into one argument
dict per point.  With at least two parameters, `xy` indexing swaps the first
two broadcast axes, so the raveled order is the row-major product over the
swapped domain list with every tuple re-projected to the original parameter
order; with zero parameters the zip of no columns is empty. -/
def gridSample {α : Type} (doms : List (String × List α)) :
    List (List (String × α)) :=
  if doms.isEmpty then []
  else
    ((cartProdRM (swap2 (doms.map Prod.snd))).map swap2).map
      (fun t => List.zip (doms.map Prod.fst) t)

/-- Grid sampling as the specification words it: the row-major Cartesian
product over the parameter domains in their given order.  Used only for
comparison with `gridSample`. -/
def gridSampleRowMajor {α : Type} (doms : List (String × List α)) :
    List (List (String × α)) :=
  if doms.isEmpty then []
  else (cartProdRM (doms.map Prod.snd)).map (fun t => List.zip (doms.map Prod.fst) t)

/-- The value tuples of the grid sample, without the parameter names. -/
def gridSampleVals {α : Type} (doms : List (String × List α)) : List (List α) :=
  if doms.isEmpty then []
  else (cartProdRM (swap2 (doms.map Prod.snd))).map swap2

theorem swap2_swap2 {α : Type} (l : List α) : swap2 (swap2 l) = l := by
  match l with
  | [] => rfl
  | [a] => rfl
  | a :: b :: rest => rfl

theorem swap2_injective {α : Type} : Function.Injective (swap2 (α := α)) := by
  intro a b h
  have := congrArg swap2 h
  rwa [swap2_swap2, swap2_swap2] at this

theorem swap2_length {α : Type} (l : List α) : (swap2 l).length = l.length := by
  match l with
  | [] => rfl
  | [a] => rfl
  | a :: b :: rest => rfl

theorem cartProdRM_length {α : Type} :
    ∀ ds : List (List α), (cartProdRM ds).length = (ds.map List.length).prod := by
  intro ds
  induction ds with
  | nil => rfl
  | cons d ds ih =>
      simp only [cartProdRM, List.map_cons, List.prod_cons, List.length_flatMap,
        Function.comp_def, List.length_map]
      rw [List.map_const']
      rw [List.sum_replicate, smul_eq_mul, ih]

theorem cartProdRM_shape {α : Type} :
    ∀ (ds : List (List α)) (t : List α), t ∈ cartProdRM ds → t.length = ds.length := by
  intro ds
  induction ds with
  | nil =>
      intro t ht
      simp only [cartProdRM, List.mem_singleton] at ht
      simp [ht]
  | cons d ds ih =>
      intro t ht
      simp only [cartProdRM, List.mem_flatMap, List.mem_map] at ht
      obtain ⟨v, _, t', ht', rfl⟩ := ht
      simp [ih t' ht']

theorem count_map_cons {α : Type} [DecidableEq α] (v v' : α) (t : List α)
    (L : List (List α)) :
    ((L.map (fun t' => v' :: t')).count (v :: t)) =
      if v' = v then L.count t else 0 := by
  induction L with
  | nil => by_cases h : v' = v <;> simp [h]
  | cons l L ih =>
      simp only [List.map_cons, List.count_cons, ih]
      by_cases h : v' = v <;> by_cases hl : l = t <;>
        simp [h, hl, beq_iff_eq]

theorem sum_ite_count {α : Type} [DecidableEq α] (d : List α) (v : α) (c : ℕ) :
    (d.map (fun v' => if v' = v then c else 0)).sum = d.count v * c := by
  induction d with
  | nil => simp
  | cons a d ih =>
      simp only [List.map_cons, List.sum_cons]
      by_cases h : a = v
      · subst h
        rw [if_pos rfl, ih, List.count_cons_self]
        ring
      · rw [if_neg h, ih, List.count_cons_of_ne (Ne.symm h)]
        omega

theorem cartProdRM_count {α : Type} [DecidableEq α] :
    ∀ (ds : List (List α)) (t : List α),
      (cartProdRM ds).count t =
        if t.length = ds.length then ((t.zip ds).map (fun p => p.2.count p.1)).prod
        else 0 := by
  intro ds
  induction ds with
  | nil =>
      intro t
      match t with
      | [] => simp [cartProdRM]
      | x :: xs => simp [cartProdRM]
  | cons d ds ih =>
      intro t
      match t with
      | [] =>
          simp only [cartProdRM, List.length_nil, List.length_cons, if_neg
            (by omega : ¬ (0 = ds.length + 1))]
          apply List.count_eq_zero.mpr
          intro hmem
          rcases List.mem_flatMap.mp hmem with ⟨v, _, hv⟩
          rcases List.mem_map.mp hv with ⟨t', _, ht'⟩
          exact List.noConfusion ht'
      | v :: t' =>
          have hcount : (cartProdRM (d :: ds)).count (v :: t') =
              (d.map (fun v' => ((cartProdRM ds).map (fun t'' => v' :: t'')).count (v :: t'))).sum := by
            simp only [cartProdRM]
            rw [List.count_flatMap]
            rfl
          rw [hcount]
          have hpt : ∀ v' : α,
              ((cartProdRM ds).map (fun t'' => v' :: t'')).count (v :: t') =
                if v' = v then (cartProdRM ds).count t' else 0 :=
            fun v' => count_map_cons v v' t' (cartProdRM ds)
          calc (d.map (fun v' => ((cartProdRM ds).map (fun t'' => v' :: t'')).count (v :: t'))).sum
              = (d.map (fun v' => if v' = v then (cartProdRM ds).count t' else 0)).sum := by
                exact congrArg List.sum (List.map_congr_left (fun v' _ => hpt v'))
            _ = d.count v * (cartProdRM ds).count t' := sum_ite_count d v _
            _ = _ := by
                rw [ih t']
                by_cases hl : t'.length = ds.length
                · simp [hl, List.zip_cons_cons]
                · simp only [if_neg hl, Nat.mul_zero, List.length_cons]
                  rw [if_neg (by omega)]

theorem swap2_prod {M : Type} [CommMonoid M] (l : List M) : (swap2 l).prod = l.prod := by
  match l with
  | [] => rfl
  | [a] => rfl
  | a :: b :: rest => simp [swap2, List.prod_cons, mul_left_comm, mul_comm]

theorem swap2_map {α β : Type} (f : α → β) (l : List α) :
    (swap2 l).map f = swap2 (l.map f) := by
  match l with
  | [] => rfl
  | [a] => rfl
  | a :: b :: rest => rfl

theorem swap2_zip {α β : Type} (t : List α) (ds : List β) (h : t.length = ds.length) :
    (swap2 t).zip (swap2 ds) = swap2 (t.zip ds) := by
  match t, ds with
  | [], [] => rfl
  | [a], [d] => rfl
  | a :: b :: t', d :: e :: ds' => rfl
  | [], d :: e :: ds' => simp at h
  | [a], d :: e :: ds' => simp at h
  | a :: b :: t', [] => simp at h
  | a :: b :: t', [d] => simp at h

theorem count_map_inj {α β : Type} [BEq α] [LawfulBEq α] [BEq β] [LawfulBEq β] (f : α → β)
    (hf : Function.Injective f) (L : List α) (x : α) :
    (L.map f).count (f x) = L.count x := by
  induction L with
  | nil => rfl
  | cons a L ih =>
      simp only [List.map_cons, List.count_cons, ih]
      by_cases h : a = x
      · subst h
        simp
      · have hne : ¬ f a = f x := fun hc => h (hf hc)
        simp [h, hne, beq_iff_eq]

theorem gridSampleVals_count {α : Type} [DecidableEq α]
    (doms : List (String × List α)) (hne : doms ≠ []) (t : List α) :
    (gridSampleVals doms).count t =
      if t.length = doms.length then
        ((t.zip (doms.map Prod.snd)).map (fun p => p.2.count p.1)).prod
      else 0 := by
  unfold gridSampleVals
  rw [if_neg (by simpa using hne)]
  have h1 : ((cartProdRM (swap2 (doms.map Prod.snd))).map swap2).count t =
      (cartProdRM (swap2 (doms.map Prod.snd))).count (swap2 t) := by
    conv_lhs => rw [← swap2_swap2 t]
    exact count_map_inj swap2 swap2_injective _ (swap2 t)
  rw [h1, cartProdRM_count]
  rw [swap2_length, swap2_length, List.length_map]
  by_cases hl : t.length = doms.length
  · rw [if_pos hl, if_pos hl]
    rw [swap2_zip t (doms.map Prod.snd) (by simpa using hl), swap2_map, swap2_prod]
  · rw [if_neg hl, if_neg hl]

theorem gridSample_map_snd {α : Type} (doms : List (String × List α)) :
    (gridSample doms).map (fun kvs => kvs.map Prod.snd) = gridSampleVals doms := by
  unfold gridSample gridSampleVals
  by_cases he : doms.isEmpty
  · rw [if_pos he, if_pos he]
    rfl
  · rw [if_neg he, if_neg he]
    rw [List.map_map]
    conv_rhs =>
      rw [← List.map_id ((cartProdRM (swap2 (doms.map Prod.snd))).map swap2)]
    apply List.map_congr_left
    intro t ht
    rcases List.mem_map.mp ht with ⟨t', ht', rfl⟩
    have hlen : (swap2 t').length = doms.length := by
      rw [swap2_length, cartProdRM_shape _ _ ht', swap2_length, List.length_map]
    simp only [Function.comp_apply, id]
    exact List.map_snd_zip (doms.map Prod.fst) (swap2 t') (by simp [hlen])

/-- C7: for every integer parameter with domain `[lo, hi]` and every sampled
float value `v`, the value passed to evaluation is `round(v)` (Python
rounding, ties to even) clamped into `[lo, hi]`; it always lies within the
domain; `_force_int` rewrites exactly the dict entry of the integer
parameter; and for domain `[0, 5]`: `2.6` maps to `3`, `-1` maps to `0`,
`7` maps to `5`. -/
theorem c7_force_int_round_clamp (lo hi : ℤ) (v : ℚ) (nm : String) (h : lo ≤ hi) :
    forceIntVal lo hi v = max lo (min hi (pythonRound v)) ∧
    lo ≤ forceIntVal lo hi v ∧ forceIntVal lo hi v ≤ hi ∧
    forceInt [(nm, v)] [.int nm lo hi] = [(nm, ((forceIntVal lo hi v : ℤ) : ℚ))] ∧
    forceIntVal 0 5 (26/10) = 3 ∧ forceIntVal 0 5 (-1) = 0 ∧ forceIntVal 0 5 7 = 5 := by
  refine ⟨?_, ?_, ?_, ?_, by norm_num [forceIntVal, pythonRound],
    by norm_num [forceIntVal, pythonRound], by norm_num [forceIntVal, pythonRound]⟩
  · simp only [forceIntVal]
    split_ifs <;> omega
  · simp only [forceIntVal]
    split_ifs <;> omega
  · simp only [forceIntVal]
    split_ifs <;> omega
  · simp [forceInt]

/-- Witness for `c7_force_int_round_clamp` at `lo = 0`, `hi = 5`,
`v = 26/10`, `nm = "x"`. -/
theorem c7_force_int_round_clamp_witness :
    forceIntVal 0 5 (26/10) = max 0 (min 5 (pythonRound (26/10))) ∧
    (0:ℤ) ≤ forceIntVal 0 5 (26/10) ∧ forceIntVal 0 5 (26/10) ≤ 5 ∧
    forceInt [("x", 26/10)] [.int ("x") 0 5] = [("x", ((forceIntVal 0 5 (26/10) : ℤ) : ℚ))] ∧
    forceIntVal 0 5 (26/10) = 3 ∧ forceIntVal 0 5 (-1) = 0 ∧ forceIntVal 0 5 7 = 5 :=
  c7_force_int_round_clamp 0 5 (26/10) ("x") (by decide)

/-- C8, counterexample to the claimed ordering: with the two parameters
`a : [1, 2]` and `b : [10, 20]`, `MethodGrid.sample` does not return the
row-major Cartesian product over the parameter order — `np.meshgrid` with
its default `indexing="xy"` makes the first parameter vary fastest, giving
`[(1,10), (2,10), (1,20), (2,20)]` instead of
`[(1,10), (1,20), (2,10), (2,20)]`. -/
theorem c8_grid_counterexample :
    gridSample [("a", [(1:ℚ), 2]), ("b", [10, 20])] ≠
      gridSampleRowMajor [("a", [(1:ℚ), 2]), ("b", [10, 20])] := by
  decide

/-- C8 amended: for a nonempty parameter list whose discretized domains are
duplicate-free with sizes `k1, ..., kn`, the grid sample has exactly
`k1 * ... * kn` entries and every combination of per-parameter values appears
exactly once; the order, however, is the `numpy.meshgrid(indexing="xy")`
ravel order — the row-major product over the domain list with its first two
entries swapped — not the row-major product over the parameter order. -/
theorem c8_grid_product (doms : List (String × List ℚ)) (t : List ℚ)
    (hne : doms ≠ []) (hnd : ∀ d ∈ doms, d.2.Nodup)
    (hlen : t.length = doms.length)
    (hmem : ∀ p ∈ t.zip (doms.map Prod.snd), p.1 ∈ p.2) :
    (gridSample doms).length = (doms.map (fun d => d.2.length)).prod ∧
    ((gridSample doms).map (fun kvs => kvs.map Prod.snd)).count t = 1 ∧
    gridSample doms =
      (cartProdRM (swap2 (doms.map Prod.snd))).map
        (fun v => List.zip (doms.map Prod.fst) (swap2 v)) := by
  refine ⟨?_, ?_, ?_⟩
  · unfold gridSample
    rw [if_neg (by simpa using hne)]
    rw [List.length_map, List.length_map, cartProdRM_length, swap2_map, swap2_prod]
    rw [List.map_map]
    rfl
  · rw [gridSample_map_snd, gridSampleVals_count doms hne t, if_pos hlen]
    apply List.prod_eq_one
    intro x hx
    rcases List.mem_map.mp hx with ⟨p, hp, rfl⟩
    have hmem' := hmem p hp
    have hnd' : p.2.Nodup := by
      rcases List.of_mem_zip hp with ⟨_, h2⟩
      rcases List.mem_map.mp h2 with ⟨d, hd, hde⟩
      exact hde ▸ hnd d hd
    exact List.count_eq_one_of_mem hnd' hmem'
  · unfold gridSample
    rw [if_neg (by simpa using hne), List.map_map]
    rfl

/-- Witness for `c8_grid_product` with parameters `a : [1, 2]`,
`b : [10, 20]` and the combination `t = [2, 10]`. -/
theorem c8_grid_product_witness :
    (gridSample [("a", [(1:ℚ), 2]), ("b", [10, 20])]).length =
      ([("a", [(1:ℚ), 2]), ("b", [10, 20])].map (fun d => d.2.length)).prod ∧
    ((gridSample [("a", [(1:ℚ), 2]), ("b", [10, 20])]).map
        (fun kvs => kvs.map Prod.snd)).count [2, 10] = 1 ∧
    gridSample [("a", [(1:ℚ), 2]), ("b", [10, 20])] =
      (cartProdRM (swap2 ([("a", [(1:ℚ), 2]), ("b", [10, 20])].map Prod.snd))).map
        (fun v => List.zip ([("a", [(1:ℚ), 2]), ("b", [10, 20])].map Prod.fst) (swap2 v)) :=
  c8_grid_product [("a", [(1:ℚ), 2]), ("b", [10, 20])] [2, 10]
    (by decide) (by decide) (by decide) (by decide)

/-! ## Design plugin: Monte Carlo sampling (`method.py`,
`MethodMonteCarlo` / `AbstractMethodRandom.sample`) -/

/-- Modelled from the spec: the external `scipy.stats.qmc.LatinHypercube`
sampler object constructed by `MethodMonteCarlo.get_sampler`.  Only the
construction arguments matter here: the dimension `d` and the optional
`seed`; scipy seeds the underlying generator from the given seed, or from
fresh OS entropy when no seed is passed. -/
structure LatinHypercube where
  d : ℕ
  seed : Option ℕ
deriving DecidableEq

/-- `MethodMonteCarlo.get_sampler` (`method.py` lines 24 and 494-498):
`DEFAULT_MONTE_CARLO_SAMPLER_TYPE(d=len(parameters))` — no seed is passed,
so the `seed` argument keeps its `None` default. -/
def monteCarloGetSampler (parameters : List DesignParameter) : LatinHypercube :=
  { d := parameters.length, seed := none }

/-- Modelled from the spec: the pseudo-random unit-hypercube points produced
by `LatinHypercube.random(n)`.  The generator is a deterministic function of
its effective seed; the concrete mixing formula below is a stand-in for the
scipy generator (only determinism in the effective seed, dependence on it,
and values in `[0, 1]` are relevant).  Output shape is `n × d`. -/
def lhsRandom (effSeed d n : ℕ) : List (List ℚ) :=
  (List.range n).map (fun i =>
    (List.range d).map (fun j => mkRat (((effSeed * 37 + i * d + j + 1) % 97 : ℕ)) 97))

/-- `sampler.random(n)`: the effective seed is the construction seed when one
was given, otherwise the OS entropy drawn at construction time. -/
def samplerRandom (s : LatinHypercube) (entropy n : ℕ) : List (List ℚ) :=
  lhsRandom (s.seed.getD entropy) s.d n

/-- Modelled from the spec: `Parameter.select_from_01` (`parameter.py` is not
under `src/`), the deterministic mapping from a uniform `[0, 1]` sample to a
valid parameter value: affine rescaling onto the span for float parameters,
rescaling followed by round-then-clamp for integer parameters. -/
def selectFrom01 : DesignParameter → ℚ → ℚ
  | .float _ lo hi, v => lo + v * (hi - lo)
  | .int _ lo hi, v => ((forceIntVal lo hi ((lo : ℚ) + v * ((hi : ℚ) - (lo : ℚ))) : ℤ) : ℚ)

/-- `AbstractMethodRandom.sample` (`method.py` lines 465-482): draw
`num_points` unit-hypercube points from the sampler, rescale column `i`
through parameter `i`'s `select_from_01`, and zip the parameter names back
onto each row (the source builds per-parameter columns and transposes; the
two formulations agree elementwise). -/
def methodRandomSample (parameters : List DesignParameter) (numPoints : ℕ)
    (s : LatinHypercube) (entropy : ℕ) : List (List (String × ℚ)) :=
  (samplerRandom s entropy numPoints).map (fun row =>
    (parameters.zip row).map (fun p => (p.1.pname, selectFrom01 p.1 p.2)))

/-- `MethodMonteCarlo.sample`: `AbstractMethodRandom.sample` with the
unseeded sampler from `MethodMonteCarlo.get_sampler`; `entropy` is the OS
entropy drawn by the generator at construction. -/
def monteCarloSample (parameters : List DesignParameter) (numPoints entropy : ℕ) :
    List (List (String × ℚ)) :=
  methodRandomSample parameters numPoints (monteCarloGetSampler parameters) entropy

/-- C9, counterexample: `MethodMonteCarlo.sample` is not a function of the
parameters and a user seed alone — no seed exists and none is passed to the
sampler — so two runs over the same parameters (differing only in the OS
entropy the unseeded generator draws) produce different sample lists. -/
theorem c9_counterexample :
    monteCarloSample [.float ("x") 0 1] 1 0 ≠ monteCarloSample [.float ("x") 0 1] 1 1 := by
  simp only [monteCarloSample, methodRandomSample, samplerRandom, monteCarloGetSampler,
    lhsRandom, selectFrom01, DesignParameter.pname, Option.getD, List.range_succ,
    List.range_zero, List.nil_append, List.map_cons, List.map_nil, List.zip_cons_cons,
    List.zip_nil_right, ne_eq, List.cons.injEq, Prod.mk.injEq, and_true, true_and,
    List.length_cons, List.length_nil]
  norm_num [Rat.mkRat_eq_div]

/-- C9 amended: the Latin-hypercube sampler is deterministic given its
construction seed — with any explicit seed `k`, the sample list does not
depend on the ambient entropy — but `MethodMonteCarlo.get_sampler` constructs
the sampler with no seed (`seed = None`), so `MethodMonteCarlo.sample`
depends on the entropy drawn at construction and is only reproducible when
that entropy coincides. -/
theorem c9_seeded_sampler_deterministic (parameters : List DesignParameter)
    (numPoints k e1 e2 : ℕ) :
    (monteCarloGetSampler parameters).seed = none ∧
    methodRandomSample parameters numPoints ⟨parameters.length, some k⟩ e1 =
      methodRandomSample parameters numPoints ⟨parameters.length, some k⟩ e2 :=
  ⟨rfl, rfl⟩

/-! ## Design plugin: `DesignSpace.run` / `Method.run` call compatibility
(`design.py`, `method.py`) -/

/-- Python-level call errors. -/
inductive PyCallError where
  | typeError
deriving DecidableEq

/-- Python keyword-call compatibility: a call succeeds only if every passed
keyword names a declared parameter and every required parameter is bound;
otherwise Python raises `TypeError`. -/
def kwCallOk (declared required passed : List String) : Bool :=
  passed.all (fun k => declared.contains k) && required.all (fun k => passed.contains k)

/-- Declared (all required) keyword parameters of `Method.run` and its
`MethodSample.run` override (`method.py` lines 44-48 and 190-193):
`parameters`, `pre_fn`, `post_fn`. -/
def methodRunKeywords : List String := ["parameters", "pre_fn", "post_fn"]

/-- Keywords passed by `DesignSpace.run_single` at `design.py` line 164:
`self.method.run(run_fn=evaluate_fn, parameters=self.parameters)`. -/
def runSingleKeywords : List String := ["run_fn", "parameters"]

/-- `MethodSample.run` with local evaluation (`method.py` lines 148-205):
sample the parameters, force integer parameters on every argument dict,
evaluate `pre_fn` on each argument dict in submission order, post-process
each output in order, and return the argument dicts together with the
results.  (`_check_pre_output` only decides local versus remote execution;
the remote branch receives results keyed by submission index, so ordering is
the same.) -/
def methodSampleRun {R T : Type} (sampleOut : List (List (String × ℚ)))
    (parameters : List DesignParameter)
    (preFn : List (String × ℚ) → R) (postFn : R → T) :
    List (List (String × ℚ)) × List T :=
  let fnArgs := sampleOut.map (fun a => forceInt a parameters)
  (fnArgs, fnArgs.map (fun a => postFn (preFn a)))

/-- `DesignSpace.run_single` (`design.py` lines 161-164): build the
evaluation closure and call `self.method.run(run_fn=evaluate_fn,
parameters=self.parameters)`.  The keyword set of this call is checked
against the declared parameters of `Method.run`; an incompatible call raises
`TypeError` before any sampling or evaluation happens. -/
def designSpaceRunSingle {R T : Type} (sampleOut : List (List (String × ℚ)))
    (parameters : List DesignParameter)
    (preFn : List (String × ℚ) → R) (postFn : R → T) :
    Except PyCallError (List (List (String × ℚ)) × List T) :=
  if kwCallOk methodRunKeywords methodRunKeywords runSingleKeywords then
    .ok (methodSampleRun sampleOut parameters preFn postFn)
  else
    .error .typeError

/-- C5: `DesignSpace.run` cannot return the ordered (argument-mapping,
result) pairs the claim describes, because `DesignSpace.run_single` calls
`Method.run` with the keyword `run_fn` (not a parameter of `Method.run`) and
without the required `pre_fn` and `post_fn`, so every run raises `TypeError`.
The callee itself, `MethodSample.run`, would pair the i-th result with the
i-th argument mapping. -/
theorem c5_run_single_type_error :
    (∀ (sampleOut : List (List (String × ℚ))) (parameters : List DesignParameter)
        (preFn : List (String × ℚ) → ℚ) (postFn : ℚ → ℚ),
      designSpaceRunSingle sampleOut parameters preFn postFn = .error .typeError) ∧
    (∀ (sampleOut : List (List (String × ℚ))) (parameters : List DesignParameter)
        (preFn : List (String × ℚ) → ℚ) (postFn : ℚ → ℚ) (i : ℕ),
      (methodSampleRun sampleOut parameters preFn postFn).2[i]? =
        ((methodSampleRun sampleOut parameters preFn postFn).1[i]?).map
          (fun a => postFn (preFn a))) := by
  constructor
  · intro sampleOut parameters preFn postFn
    have hkw : kwCallOk methodRunKeywords methodRunKeywords runSingleKeywords = false := by
      decide
    simp [designSpaceRunSingle, hkw]
  · intro sampleOut parameters preFn postFn i
    simp [methodSampleRun, List.getElem?_map]

/-! ## Inverse-design optimizer (`optimizer.py`) -/

/-- Modelled from the spec: the auxiliary data carried by the objective
function next to its value (`aux_data` in `continue_run`): penalty, raw
post-process value, and the simulation artifact of the step. -/
structure AuxData (V Sim : Type) where
  penalty : V
  post_process_val : V
  simulation : Sim
deriving DecidableEq

/-- Modelled from the spec: `InverseDesignResult` (`result.py` is not under
`src/`).  The append-only optimization history: per-field lists of
parameters, optimizer state, objective values, gradients and diagnostics.
`history` in `optimizer.py` is the dict of exactly these seven lists,
`InverseDesignResult(design=..., **history)` rebuilds a result from them, and
`get_final(key)` returns the last entry of `history[key]`.  Lists not passed
to the constructor default to empty (`initialize_result` passes only
`params` and `opt_state`). -/
structure InverseDesignResult (P S G V Sim : Type) where
  params : List P := []
  opt_state : List S := []
  objective_fn_val : List V := []
  grad : List G := []
  penalty : List V := []
  post_process_val : List V := []
  simulation : List Sim := []
deriving DecidableEq

/-- `AbstractOptimizer` together with the collaborators `continue_run` uses:
the value-and-gradient form of the objective
(`jax.value_and_grad(self.design.objective_fn, has_aux=True)` returning
`((val, aux_data), grad)`), the pluggable optax-style gradient transformation
(`init` / `update` / `apply_updates`), the number of steps, and whether a
checkpoint file is configured (`history_save_fname`). -/
structure Optimizer (P S G U V Sim : Type) where
  valAndGrad : P → (V × AuxData V Sim) × G
  optInit : P → S
  optUpdate : G → S → P → U × S
  applyUpdates : P → U → P
  numSteps : ℕ
  historySaveFname : Bool

/-- `AbstractOptimizer.initialize_result` (`optimizer.py` lines 52-61):
initialize the optax state from the starting parameters and create a result
whose `params` and `opt_state` lists hold one entry each, all other history
lists empty. -/
def initializeResult {P S G U V Sim : Type} (o : Optimizer P S G U V Sim) (params0 : P) :
    InverseDesignResult P S G V Sim :=
  { params := [params0], opt_state := [o.optInit params0] }

/-- One iteration of the `continue_run` loop body (`optimizer.py` lines
85-113), with the mid-step observation exposed: evaluate objective and
gradient at the current parameters, append value / gradient / penalty /
post-process value / simulation to the history (this intermediate history is
the result object built at line 102 and handed to `display_fn` and, when
configured, `to_file` — returned here as the second component), then update
the optimizer state with the negated gradient, apply the update to the
parameters and append both.  Returns ((new state, new params, new history),
observed history). -/
def optStepPair {P S G U V Sim : Type} [Neg G] (o : Optimizer P S G U V Sim)
    (x : S × P × InverseDesignResult P S G V Sim) :
    (S × P × InverseDesignResult P S G V Sim) × InverseDesignResult P S G V Sim :=
  let s := x.1
  let p := x.2.1
  let h := x.2.2
  let r := o.valAndGrad p
  let val := r.1.1
  let aux := r.1.2
  let g := r.2
  let h1 : InverseDesignResult P S G V Sim :=
    { h with
      objective_fn_val := h.objective_fn_val ++ [val]
      grad := h.grad ++ [g]
      penalty := h.penalty ++ [aux.penalty]
      post_process_val := h.post_process_val ++ [aux.post_process_val]
      simulation := h.simulation ++ [aux.simulation] }
  let us := o.optUpdate (-g) s p
  let p2 := o.applyUpdates p us.1
  let h2 : InverseDesignResult P S G V Sim :=
    { h1 with params := h1.params ++ [p2], opt_state := h1.opt_state ++ [us.2] }
  ((us.2, p2, h2), h1)

/-- The state successor of one loop iteration. -/
def optStep {P S G U V Sim : Type} [Neg G] (o : Optimizer P S G U V Sim)
    (x : S × P × InverseDesignResult P S G V Sim) :
    S × P × InverseDesignResult P S G V Sim :=
  (optStepPair o x).1

/-- The history observed by `display_fn` / `to_file` during one iteration. -/
def optStepObs {P S G U V Sim : Type} [Neg G] (o : Optimizer P S G U V Sim)
    (x : S × P × InverseDesignResult P S G V Sim) :
    InverseDesignResult P S G V Sim :=
  (optStepPair o x).2

/-- Failure modes of `continue_run`. -/
inductive RunError where
  | emptyHistory
  | saveFailed
deriving DecidableEq

/-- The final result of a run together with the sequence of histories that
were observed by the display callback / checkpoint write, in order. -/
structure RunOutput (P S G V Sim : Type) where
  result : InverseDesignResult P S G V Sim
  observed : List (InverseDesignResult P S G V Sim)
deriving DecidableEq

/-- The `for loop_index in range(self.num_steps)` loop of `continue_run`
(`optimizer.py` lines 85-115).  `save i` tells whether the checkpoint write
at loop index `i` would succeed; it is consulted only when a checkpoint file
is configured (`history_save_fname`).  The mid-step result built at line 102
is recorded in `observed`; a failing checkpoint write raises out of the loop
— there is no `try`/`except` around `result.to_file` — so the whole call
fails with `saveFailed`. -/
def runLoop {P S G U V Sim : Type} [Neg G] (o : Optimizer P S G U V Sim)
    (save : ℕ → Bool) :
    ℕ → ℕ → S × P × InverseDesignResult P S G V Sim →
      Except RunError (RunOutput P S G V Sim)
  | 0, _, x => .ok { result := x.2.2, observed := [] }
  | n + 1, i, x =>
      let step := optStepPair o x
      if o.historySaveFname && !(save i) then .error .saveFailed
      else
        match runLoop o save n (i + 1) step.1 with
        | .ok out => .ok { result := out.result, observed := step.2 :: out.observed }
        | .error e => .error e

/-- `AbstractOptimizer.continue_run` (`optimizer.py` lines 69-115): read the
final recorded optimizer state and parameters (`get_final`), deep-copy the
history (a value-level copy in this pure embedding), and run the main loop
for `num_steps` iterations starting at loop index 0. -/
def continueRun {P S G U V Sim : Type} [Neg G] (o : Optimizer P S G U V Sim)
    (save : ℕ → Bool) (res : InverseDesignResult P S G V Sim) :
    Except RunError (RunOutput P S G V Sim) :=
  match res.opt_state.getLast?, res.params.getLast? with
  | some s, some p => runLoop o save o.numSteps 0 (s, p, res)
  | _, _ => .error .emptyHistory

/-- `AbstractOptimizer.run` (`optimizer.py` lines 63-67): initialize a result
from the starting parameters and continue it. -/
def runOptimizer {P S G U V Sim : Type} [Neg G] (o : Optimizer P S G U V Sim)
    (save : ℕ → Bool) (params0 : P) : Except RunError (RunOutput P S G V Sim) :=
  continueRun o save (initializeResult o params0)

/-- The save oracle of a run in which every checkpoint write succeeds (also
the behavior when no checkpoint file is configured). -/
def alwaysSaveOk : ℕ → Bool := fun _ => true

theorem optStep_numSteps {P S G U V Sim : Type} [Neg G] (o : Optimizer P S G U V Sim)
    (m : ℕ) : optStep { o with numSteps := m } = optStep o := rfl

theorem runLoop_alwaysOk {P S G U V Sim : Type} [Neg G] (o : Optimizer P S G U V Sim) :
    ∀ (n i : ℕ) (x : S × P × InverseDesignResult P S G V Sim),
      runLoop o alwaysSaveOk n i x =
        .ok { result := ((optStep o)^[n] x).2.2,
              observed := (List.range n).map (fun k => optStepObs o ((optStep o)^[k] x)) } := by
  intro n
  induction n with
  | zero =>
      intro i x
      simp [runLoop]
  | succ n ih =>
      intro i x
      simp only [runLoop, alwaysSaveOk, Bool.not_true, Bool.and_false, Bool.false_eq_true,
        if_false, ih (i + 1) (optStepPair o x).1]
      have hres : ((optStep o)^[n] (optStep o x)).2.2 = ((optStep o)^[n + 1] x).2.2 := by
        rw [Function.iterate_succ_apply]
      have hobs : optStepObs o x ::
            (List.range n).map (fun k => optStepObs o ((optStep o)^[k] (optStep o x))) =
          (List.range (n + 1)).map (fun k => optStepObs o ((optStep o)^[k] x)) := by
        rw [List.range_succ_eq_map, List.map_cons, List.map_map]
        simp only [Function.iterate_zero_apply, Function.comp_def,
          Function.iterate_succ_apply]
      rw [← hres, ← hobs]
      rfl

theorem runLoop_noFname {P S G U V Sim : Type} [Neg G] (o : Optimizer P S G U V Sim)
    (hf : o.historySaveFname = false) (save : ℕ → Bool) :
    ∀ (n i : ℕ) (x : S × P × InverseDesignResult P S G V Sim),
      runLoop o save n i x = runLoop o alwaysSaveOk n i x := by
  intro n
  induction n with
  | zero => intro i x; rfl
  | succ n ih =>
      intro i x
      simp only [runLoop, hf, Bool.false_and, Bool.false_eq_true, if_false,
        alwaysSaveOk, Bool.not_true, Bool.and_false, ih (i + 1)]

/-- The final recorded `opt_state` and `params` entries of a state triple
coincide with its state and parameter components. -/
def lastInv {P S G V Sim : Type} (x : S × P × InverseDesignResult P S G V Sim) : Prop :=
  x.2.2.opt_state.getLast? = some x.1 ∧ x.2.2.params.getLast? = some x.2.1

theorem optStep_lastInv {P S G U V Sim : Type} [Neg G] (o : Optimizer P S G U V Sim)
    (x : S × P × InverseDesignResult P S G V Sim) : lastInv (optStep o x) := by
  constructor <;> simp [optStep, optStepPair, List.getLast?_concat]

theorem lastInv_iterate {P S G U V Sim : Type} [Neg G] (o : Optimizer P S G U V Sim)
    (x : S × P × InverseDesignResult P S G V Sim) (hx : lastInv x) :
    ∀ n : ℕ, lastInv ((optStep o)^[n] x) := by
  intro n
  induction n with
  | zero => exact hx
  | succ n ih =>
      rw [Function.iterate_succ_apply']
      exact optStep_lastInv o _

theorem continueRun_of_lastInv {P S G U V Sim : Type} [Neg G]
    (o : Optimizer P S G U V Sim) (save : ℕ → Bool)
    (x : S × P × InverseDesignResult P S G V Sim) (hx : lastInv x) :
    continueRun o save x.2.2 = runLoop o save o.numSteps 0 x := by
  obtain ⟨hs, hp⟩ := hx
  simp only [continueRun, hs, hp]

/-- C3: for every optimizer configuration, every starting parameter vector
and every `M ≤ N` (with all checkpoint writes succeeding), running the
optimizer for `N` steps directly yields the same final result — the same
history, and hence the same final parameters — as running it for `M` steps
and then continuing the produced result for the remaining `N - M` steps. -/
theorem c3_resume_equals_direct {P S G U V Sim : Type} [Neg G]
    (o : Optimizer P S G U V Sim) (p0 : P) (N M : ℕ) (h : M ≤ N) :
    (runOptimizer { o with numSteps := N } alwaysSaveOk p0).map (fun out => out.result) =
      ((runOptimizer { o with numSteps := M } alwaysSaveOk p0).bind
        (fun rM => continueRun { o with numSteps := N - M } alwaysSaveOk rM.result)).map
        (fun out => out.result) := by
  have hx0 : lastInv (o.optInit p0, p0, initializeResult o p0) := by
    constructor <;> simp [initializeResult]
  have hinit : ∀ m : ℕ, initializeResult { o with numSteps := m } p0 = initializeResult o p0 :=
    fun m => rfl
  set x0 : S × P × InverseDesignResult P S G V Sim :=
    (o.optInit p0, p0, initializeResult o p0) with hx0def
  have hlhs : runOptimizer { o with numSteps := N } alwaysSaveOk p0 =
      runLoop { o with numSteps := N } alwaysSaveOk N 0 x0 := by
    unfold runOptimizer
    rw [hinit N, continueRun_of_lastInv { o with numSteps := N } alwaysSaveOk x0 hx0]
  have hmid : runOptimizer { o with numSteps := M } alwaysSaveOk p0 =
      runLoop { o with numSteps := M } alwaysSaveOk M 0 x0 := by
    unfold runOptimizer
    rw [hinit M, continueRun_of_lastInv { o with numSteps := M } alwaysSaveOk x0 hx0]
  rw [hlhs, hmid, runLoop_alwaysOk, runLoop_alwaysOk]
  have hres : continueRun { o with numSteps := N - M } alwaysSaveOk
      ((optStep o)^[M] x0).2.2 =
      .ok { result := ((optStep o)^[N] x0).2.2,
            observed := (List.range (N - M)).map
              (fun k => optStepObs { o with numSteps := N - M }
                ((optStep o)^[k] ((optStep o)^[M] x0))) } := by
    rw [continueRun_of_lastInv { o with numSteps := N - M } alwaysSaveOk
      ((optStep o)^[M] x0) (lastInv_iterate o x0 hx0 M)]
    rw [runLoop_alwaysOk]
    have hit : ((optStep { o with numSteps := N - M })^[N - M] ((optStep o)^[M] x0)) =
        (optStep o)^[N] x0 := by
      rw [optStep_numSteps, ← Function.iterate_add_apply]
      congr 1
      omega
    rw [hit]
    simp only [optStep_numSteps]
    try rfl
  simp only [optStep_numSteps, Except.map, Except.bind]
  rw [hres]

/-- A small concrete optimizer instance over `ℤ` used to instantiate the
optimizer-loop theorems: a quadratic objective with its analytic gradient,
constant diagnostics, an accumulating optax-style state, two steps, and no
checkpoint file. -/
def sampleOptimizer : Optimizer ℤ ℤ ℤ ℤ ℤ ℤ :=
  { valAndGrad := fun p => ((p * p, ⟨1, 2, 3⟩), 2 * p)
    optInit := fun _ => 0
    optUpdate := fun g s _ => (g + s, s + 1)
    applyUpdates := fun p u => p + u
    numSteps := 2
    historySaveFname := false }

/-- Witness for `c3_resume_equals_direct` at the concrete optimizer
`sampleOptimizer`, starting parameters `5`, `N = 3`, `M = 1`. -/
theorem c3_resume_equals_direct_witness :
    (runOptimizer { sampleOptimizer with numSteps := 3 } alwaysSaveOk (5:ℤ)).map
        (fun out => out.result) =
      ((runOptimizer { sampleOptimizer with numSteps := 1 } alwaysSaveOk (5:ℤ)).bind
        (fun rM => continueRun { sampleOptimizer with numSteps := 3 - 1 }
          alwaysSaveOk rM.result)).map (fun out => out.result) :=
  c3_resume_equals_direct sampleOptimizer 5 3 1 (by decide)

/-- Lengths invariant maintained at every loop entry point: `params` and
`opt_state` hold exactly one entry more than the objective, gradient and
diagnostic lists. -/
def lenInv {P S G V Sim : Type} (x : S × P × InverseDesignResult P S G V Sim) : Prop :=
  x.2.2.params.length = x.2.2.opt_state.length ∧
  x.2.2.params.length = x.2.2.objective_fn_val.length + 1 ∧
  x.2.2.objective_fn_val.length = x.2.2.grad.length ∧
  x.2.2.objective_fn_val.length = x.2.2.penalty.length ∧
  x.2.2.objective_fn_val.length = x.2.2.post_process_val.length

theorem optStep_lenInv {P S G U V Sim : Type} [Neg G] (o : Optimizer P S G U V Sim)
    (x : S × P × InverseDesignResult P S G V Sim) (hx : lenInv x) :
    lenInv (optStep o x) := by
  obtain ⟨h1, h2, h3, h4, h5⟩ := hx
  refine ⟨?_, ?_, ?_, ?_, ?_⟩ <;>
    simp [optStep, optStepPair, List.length_append] <;> omega

theorem lenInv_iterate {P S G U V Sim : Type} [Neg G] (o : Optimizer P S G U V Sim)
    (x : S × P × InverseDesignResult P S G V Sim) (hx : lenInv x) :
    ∀ n : ℕ, lenInv ((optStep o)^[n] x) := by
  intro n
  induction n with
  | zero => exact hx
  | succ n ih =>
      rw [Function.iterate_succ_apply']
      exact optStep_lenInv o _ ih

theorem optStepObs_lengths {P S G U V Sim : Type} [Neg G] (o : Optimizer P S G U V Sim)
    (x : S × P × InverseDesignResult P S G V Sim) (hx : lenInv x) :
    (optStepObs o x).params.length = (optStepObs o x).opt_state.length ∧
    (optStepObs o x).params.length = (optStepObs o x).objective_fn_val.length ∧
    (optStepObs o x).params.length = (optStepObs o x).grad.length ∧
    (optStepObs o x).params.length = (optStepObs o x).penalty.length ∧
    (optStepObs o x).params.length = (optStepObs o x).post_process_val.length := by
  obtain ⟨h1, h2, h3, h4, h5⟩ := hx
  refine ⟨?_, ?_, ?_, ?_, ?_⟩ <;>
    simp [optStepObs, optStepPair, List.length_append] <;> omega

/-- C4, counterexample: immediately after initialization — an observation
point by the claim's own wording — the per-field sequences do not have equal
length: `params` holds one entry while `objective_fn_val` is empty. -/
theorem c4_counterexample :
    ¬ ((initializeResult sampleOptimizer (3:ℤ)).params.length =
       (initializeResult sampleOptimizer (3:ℤ)).objective_fn_val.length) := by
  decide

/-- C4 amended: in a run of the optimizer (with checkpoint writes
succeeding), every history observed by the display callback / checkpoint has
all six per-field sequences of equal length; but after initialization and in
the final returned result, `params` and `opt_state` hold exactly one entry
more than `objective_fn_val`, `grad`, `penalty` and `post_process_val`
(initialization: one entry versus zero). -/
theorem c4_observation_lengths {P S G U V Sim : Type} [Neg G]
    (o : Optimizer P S G U V Sim) (p0 : P) (out : RunOutput P S G V Sim)
    (hrun : runOptimizer o alwaysSaveOk p0 = .ok out) :
    (∀ h ∈ out.observed,
      h.params.length = h.opt_state.length ∧
      h.params.length = h.objective_fn_val.length ∧
      h.params.length = h.grad.length ∧
      h.params.length = h.penalty.length ∧
      h.params.length = h.post_process_val.length) ∧
    out.result.params.length = out.result.objective_fn_val.length + 1 ∧
    out.result.opt_state.length = out.result.objective_fn_val.length + 1 ∧
    out.result.objective_fn_val.length = out.result.grad.length ∧
    out.result.objective_fn_val.length = out.result.penalty.length ∧
    out.result.objective_fn_val.length = out.result.post_process_val.length ∧
    (initializeResult o p0).params.length = 1 ∧
    (initializeResult o p0).opt_state.length = 1 ∧
    (initializeResult o p0).objective_fn_val.length = 0 := by
  set x0 : S × P × InverseDesignResult P S G V Sim :=
    (o.optInit p0, p0, initializeResult o p0) with hx0def
  have hx0last : lastInv x0 := by
    constructor <;> simp [hx0def, initializeResult]
  have hx0len : lenInv x0 := by
    refine ⟨?_, ?_, ?_, ?_, ?_⟩ <;> simp [hx0def, initializeResult]
  have hrun' : runOptimizer o alwaysSaveOk p0 =
      .ok { result := ((optStep o)^[o.numSteps] x0).2.2,
            observed := (List.range o.numSteps).map
              (fun k => optStepObs o ((optStep o)^[k] x0)) } := by
    unfold runOptimizer
    rw [continueRun_of_lastInv o alwaysSaveOk x0 hx0last, runLoop_alwaysOk]
  rw [hrun'] at hrun
  have hout := Except.ok.inj hrun
  subst hout
  refine ⟨?_, ?_, ?_, ?_, ?_, ?_, by simp [initializeResult], by simp [initializeResult],
    by simp [initializeResult]⟩
  · intro h hh
    rcases List.mem_map.mp hh with ⟨k, _, rfl⟩
    exact optStepObs_lengths o _ (lenInv_iterate o x0 hx0len k)
  all_goals
    dsimp only
    have hfin := lenInv_iterate o x0 hx0len o.numSteps
    obtain ⟨h1, h2, h3, h4, h5⟩ := hfin
    omega

/-- The output of the two-step sample run, extracted from the run itself. -/
def sampleRunOutput : RunOutput ℤ ℤ ℤ ℤ ℤ :=
  (runOptimizer sampleOptimizer alwaysSaveOk 3).toOption.getD
    { result := {}, observed := [] }

/-- Witness for `c4_observation_lengths` at the concrete two-step run of
`sampleOptimizer` from starting parameters `3`. -/
theorem c4_observation_lengths_witness :
    (∀ h ∈ sampleRunOutput.observed,
      h.params.length = h.opt_state.length ∧
      h.params.length = h.objective_fn_val.length ∧
      h.params.length = h.grad.length ∧
      h.params.length = h.penalty.length ∧
      h.params.length = h.post_process_val.length) ∧
    sampleRunOutput.result.params.length =
      sampleRunOutput.result.objective_fn_val.length + 1 ∧
    sampleRunOutput.result.opt_state.length =
      sampleRunOutput.result.objective_fn_val.length + 1 ∧
    sampleRunOutput.result.objective_fn_val.length =
      sampleRunOutput.result.grad.length ∧
    sampleRunOutput.result.objective_fn_val.length =
      sampleRunOutput.result.penalty.length ∧
    sampleRunOutput.result.objective_fn_val.length =
      sampleRunOutput.result.post_process_val.length ∧
    (initializeResult sampleOptimizer (3:ℤ)).params.length = 1 ∧
    (initializeResult sampleOptimizer (3:ℤ)).opt_state.length = 1 ∧
    (initializeResult sampleOptimizer (3:ℤ)).objective_fn_val.length = 0 :=
  c4_observation_lengths sampleOptimizer 3 sampleRunOutput rfl

/-- An optimizer identical to `sampleOptimizer` but with a configured
checkpoint file (`history_save_fname` set) and a single step. -/
def sampleOptimizerSaving : Optimizer ℤ ℤ ℤ ℤ ℤ ℤ :=
  { sampleOptimizer with historySaveFname := true, numSteps := 1 }

instance exceptDecidableEq {ε α : Type} [DecidableEq ε] [DecidableEq α] :
    DecidableEq (Except ε α) := fun a b =>
  match a, b with
  | .error e1, .error e2 =>
      if h : e1 = e2 then .isTrue (by rw [h])
      else .isFalse (by intro hc; cases hc; exact h rfl)
  | .ok a1, .ok a2 =>
      if h : a1 = a2 then .isTrue (by rw [h])
      else .isFalse (by intro hc; cases hc; exact h rfl)
  | .error _, .ok _ => .isFalse (by intro hc; cases hc)
  | .ok _, .error _ => .isFalse (by intro hc; cases hc)

/-- C6, counterexample: with a checkpoint file configured, a failing
checkpoint write does not leave the run unaffected — `continue_run` with a
failing write differs from the same run with a succeeding write, because the
exception from `result.to_file` propagates (there is no `try`/`except`
around it) and aborts the loop. -/
theorem c6_counterexample :
    continueRun sampleOptimizerSaving (fun _ => false)
        (initializeResult sampleOptimizerSaving 3) ≠
      continueRun sampleOptimizerSaving alwaysSaveOk
        (initializeResult sampleOptimizerSaving 3) := by
  decide

/-- C6 amended: a checkpoint-write failure is not caught.  When a checkpoint
file is configured and the write at the first loop step fails, `continue_run`
aborts with the persistence error and produces no result; only when no
checkpoint file is configured is the run independent of the fate of the
writes. -/
theorem c6_save_failure_aborts {P S G U V Sim : Type} [Neg G]
    (o : Optimizer P S G U V Sim) (save : ℕ → Bool)
    (res : InverseDesignResult P S G V Sim) (s : S) (p : P)
    (hs : res.opt_state.getLast? = some s) (hp : res.params.getLast? = some p)
    (hfname : o.historySaveFname = true) (hsave : save 0 = false)
    (hn : 0 < o.numSteps) :
    continueRun o save res = .error .saveFailed ∧
    continueRun { o with historySaveFname := false } save res =
      continueRun { o with historySaveFname := false } alwaysSaveOk res := by
  constructor
  · simp only [continueRun, hs, hp]
    rcases Nat.exists_eq_add_of_lt hn with ⟨k, hk⟩
    rw [Nat.zero_add] at hk
    rw [hk]
    simp [runLoop, hfname, hsave]
  · simp only [continueRun, hs, hp]
    exact runLoop_noFname { o with historySaveFname := false } rfl save _ 0 _

/-- Witness for `c6_save_failure_aborts` at `sampleOptimizerSaving`, an
always-failing write oracle and the freshly initialized result from starting
parameters `3`. -/
theorem c6_save_failure_aborts_witness :
    continueRun sampleOptimizerSaving (fun _ => false)
        (initializeResult sampleOptimizerSaving 3) = .error .saveFailed ∧
    continueRun { sampleOptimizerSaving with historySaveFname := false }
        (fun _ => false) (initializeResult sampleOptimizerSaving 3) =
      continueRun { sampleOptimizerSaving with historySaveFname := false }
        alwaysSaveOk (initializeResult sampleOptimizerSaving 3) :=
  c6_save_failure_aborts sampleOptimizerSaving (fun _ => false)
    (initializeResult sampleOptimizerSaving 3) 0 3 rfl rfl rfl rfl (by decide)

/-! ## Aliasing model of `continue_run` (C10): Python lists as heap cells -/

/-- A heap of mutable Python list objects, addressed by allocation index. -/
abbrev PyHeap (α : Type) : Type := List (List α)

/-- Read the list stored in cell `r` (empty for a dangling reference). -/
def heapRead {α : Type} : PyHeap α → ℕ → List α
  | [], _ => []
  | c :: _, 0 => c
  | _ :: h, n + 1 => heapRead h n

/-- Overwrite cell `r` (no-op for a dangling reference). -/
def heapWrite {α : Type} : PyHeap α → ℕ → List α → PyHeap α
  | [], _, _ => []
  | _ :: h, 0, l => l :: h
  | c :: h, n + 1, l => c :: heapWrite h n l

/-- Python `list.append` through a reference. -/
def heapAppend {α : Type} (h : PyHeap α) (r : ℕ) (x : α) : PyHeap α :=
  heapWrite h r (heapRead h r ++ [x])

/-- The references making up an `InverseDesignResult`'s history dict: one
Python list object per field. -/
structure ResultRefs where
  params : ℕ
  opt_state : ℕ
  objective_fn_val : ℕ
  grad : ℕ
  penalty : ℕ
  post_process_val : ℕ
  simulation : ℕ
deriving DecidableEq

/-- The seven references of a result, as a list. -/
def ResultRefs.refList (r : ResultRefs) : List ℕ :=
  [r.params, r.opt_state, r.objective_fn_val, r.grad, r.penalty,
   r.post_process_val, r.simulation]

/-- `deepcopy(result.history)` (`optimizer.py` line 75): allocate seven fresh
cells holding copies of the seed result's list contents; the seed's cells are
not referenced by the copy. -/
def deepcopyHistory {α : Type} (h : PyHeap α) (r : ResultRefs) :
    PyHeap α × ResultRefs :=
  (h ++ [heapRead h r.params, heapRead h r.opt_state,
         heapRead h r.objective_fn_val, heapRead h r.grad, heapRead h r.penalty,
         heapRead h r.post_process_val, heapRead h r.simulation],
   { params := h.length, opt_state := h.length + 1,
     objective_fn_val := h.length + 2, grad := h.length + 3,
     penalty := h.length + 4, post_process_val := h.length + 5,
     simulation := h.length + 6 })

/-- The `continue_run` loop (`optimizer.py` lines 85-115) against the heap:
the five evaluation appends mutate the (deep-copied) history cells, the
checkpoint write may fail and raise, and the parameter / state appends follow
the optimizer update.  All seven payload types of the optimizer are `α` here
since the cells of one heap share one element type. -/
def runLoopHeap {α : Type} [Neg α] (o : Optimizer α α α α α α) (save : ℕ → Bool) :
    ℕ → ℕ → α × α → ResultRefs → PyHeap α → PyHeap α × Except RunError ResultRefs
  | 0, _, _, refs, h => (h, .ok refs)
  | n + 1, i, sp, refs, h =>
      let r := o.valAndGrad sp.2
      let h1 := heapAppend h refs.objective_fn_val r.1.1
      let h2 := heapAppend h1 refs.grad r.2
      let h3 := heapAppend h2 refs.penalty r.1.2.penalty
      let h4 := heapAppend h3 refs.post_process_val r.1.2.post_process_val
      let h5 := heapAppend h4 refs.simulation r.1.2.simulation
      if o.historySaveFname && !(save i) then (h5, .error .saveFailed)
      else
        let us := o.optUpdate (-r.2) sp.1 sp.2
        let p2 := o.applyUpdates sp.2 us.1
        let h6 := heapAppend h5 refs.params p2
        let h7 := heapAppend h6 refs.opt_state us.2
        runLoopHeap o save n (i + 1) (us.2, p2) refs h7

/-- `AbstractOptimizer.continue_run` against the heap: read the final
recorded state and parameters through the seed's references, deep-copy the
history, and run the loop on the fresh cells.  The resulting heap is returned
also on failure (a Python exception leaves the heap as it was at raise
time). -/
def continueRunHeap {α : Type} [Neg α] (o : Optimizer α α α α α α)
    (save : ℕ → Bool) (h : PyHeap α) (res : ResultRefs) :
    PyHeap α × Except RunError ResultRefs :=
  match (heapRead h res.opt_state).getLast?, (heapRead h res.params).getLast? with
  | some s, some p =>
      let hc := deepcopyHistory h res
      runLoopHeap o save o.numSteps 0 (s, p) hc.2 hc.1
  | _, _ => (h, .error .emptyHistory)

theorem heapWrite_length {α : Type} :
    ∀ (h : PyHeap α) (r : ℕ) (l : List α), (heapWrite h r l).length = h.length := by
  intro h
  induction h with
  | nil => intro r l; rfl
  | cons c h ih =>
      intro r l
      cases r with
      | zero => rfl
      | succ r => simp [heapWrite, ih]

theorem heapRead_write_ne {α : Type} :
    ∀ (h : PyHeap α) (r r' : ℕ) (l : List α), r' ≠ r →
      heapRead (heapWrite h r l) r' = heapRead h r' := by
  intro h
  induction h with
  | nil => intro r r' l _; rfl
  | cons c h ih =>
      intro r r' l hne
      cases r with
      | zero =>
          cases r' with
          | zero => exact absurd rfl hne
          | succ r' => rfl
      | succ r =>
          cases r' with
          | zero => rfl
          | succ r' => exact ih r r' l (fun hc => hne (by rw [hc]))

theorem heapRead_append_lt {α : Type} :
    ∀ (h hs : PyHeap α) (r : ℕ), r < h.length →
      heapRead (h ++ hs) r = heapRead h r := by
  intro h
  induction h with
  | nil => intro hs r hr; simp at hr
  | cons c h ih =>
      intro hs r hr
      cases r with
      | zero => rfl
      | succ r =>
          simp only [List.cons_append, heapRead]
          exact ih hs r (by simpa using hr)

theorem heapAppend_frame {α : Type} (h : PyHeap α) (r r' : ℕ) (x : α) (m : ℕ)
    (hm : m ≤ r) (hr' : r' < m) :
    heapRead (heapAppend h r x) r' = heapRead h r' :=
  heapRead_write_ne h r r' _ (by omega)

theorem heapAppend_length {α : Type} (h : PyHeap α) (r : ℕ) (x : α) :
    (heapAppend h r x).length = h.length :=
  heapWrite_length h r _

theorem runLoopHeap_frame {α : Type} [Neg α] (o : Optimizer α α α α α α)
    (save : ℕ → Bool) :
    ∀ (n i : ℕ) (sp : α × α) (refs : ResultRefs) (h : PyHeap α) (m : ℕ),
      (∀ r ∈ refs.refList, m ≤ r) → ∀ r' : ℕ, r' < m →
      heapRead (runLoopHeap o save n i sp refs h).1 r' = heapRead h r' := by
  intro n
  induction n with
  | zero => intro i sp refs h m hrefs r' hr'; rfl
  | succ n ih =>
      intro i sp refs h m hrefs r' hr'
      have hobj : m ≤ refs.objective_fn_val := hrefs _ (by simp [ResultRefs.refList])
      have hgrad : m ≤ refs.grad := hrefs _ (by simp [ResultRefs.refList])
      have hpen : m ≤ refs.penalty := hrefs _ (by simp [ResultRefs.refList])
      have hppv : m ≤ refs.post_process_val := hrefs _ (by simp [ResultRefs.refList])
      have hsim : m ≤ refs.simulation := hrefs _ (by simp [ResultRefs.refList])
      have hpar : m ≤ refs.params := hrefs _ (by simp [ResultRefs.refList])
      have hst : m ≤ refs.opt_state := hrefs _ (by simp [ResultRefs.refList])
      simp only [runLoopHeap]
      by_cases hsv : (o.historySaveFname && !(save i)) = true
      · rw [if_pos hsv]
        rw [heapAppend_frame _ _ _ _ m hsim hr', heapAppend_frame _ _ _ _ m hppv hr',
          heapAppend_frame _ _ _ _ m hpen hr', heapAppend_frame _ _ _ _ m hgrad hr',
          heapAppend_frame _ _ _ _ m hobj hr']
      · rw [if_neg hsv]
        rw [ih (i + 1) _ refs _ m hrefs r' hr']
        rw [heapAppend_frame _ _ _ _ m hst hr', heapAppend_frame _ _ _ _ m hpar hr',
          heapAppend_frame _ _ _ _ m hsim hr', heapAppend_frame _ _ _ _ m hppv hr',
          heapAppend_frame _ _ _ _ m hpen hr', heapAppend_frame _ _ _ _ m hgrad hr',
          heapAppend_frame _ _ _ _ m hobj hr']

/-- C10: `continue_run` never mutates the result it is given.  For any heap
and any seed result whose seven history cells are live, every one of the
seed's cells holds the same list after `continue_run` (successful or failed)
as before: the history is deep-copied before any append, and all appends go
to the fresh cells. -/
theorem c10_continue_run_frame {α : Type} [Neg α] (o : Optimizer α α α α α α)
    (save : ℕ → Bool) (h : PyHeap α) (res : ResultRefs)
    (hvalid : ∀ r ∈ res.refList, r < h.length) :
    ∀ r ∈ res.refList, heapRead (continueRunHeap o save h res).1 r = heapRead h r := by
  intro r hr
  unfold continueRunHeap
  split
  · next s p hs hp =>
      simp only [deepcopyHistory]
      rw [runLoopHeap_frame o save o.numSteps 0 (s, p) _ _ h.length
        (by
          intro r2 hr2
          simp only [ResultRefs.refList, List.mem_cons, List.not_mem_nil, or_false] at hr2
          rcases hr2 with rfl | rfl | rfl | rfl | rfl | rfl | rfl <;> omega)
        r (hvalid r hr)]
      exact heapRead_append_lt h _ r (hvalid r hr)
  · rfl

/-- Witness for `c10_continue_run_frame`: a seven-cell heap over `ℤ` holding
a freshly initialized history (`params = [5]`, `opt_state = [0]`), run for
two steps with `sampleOptimizer`. -/
theorem c10_continue_run_frame_witness :
    heapRead (continueRunHeap sampleOptimizer alwaysSaveOk
        [[5], [0], [], [], [], [], []] (ResultRefs.mk 0 1 2 3 4 5 6)).1 0 =
      heapRead [[5], [0], [], [], [], [], []] 0 ∧
    heapRead (continueRunHeap sampleOptimizer alwaysSaveOk
        [[5], [0], [], [], [], [], []] (ResultRefs.mk 0 1 2 3 4 5 6)).1 1 =
      heapRead [[5], [0], [], [], [], [], []] 1 :=
  ⟨c10_continue_run_frame sampleOptimizer alwaysSaveOk
      [[5], [0], [], [], [], [], []] (ResultRefs.mk 0 1 2 3 4 5 6) (by decide) 0 (by decide),
   c10_continue_run_frame sampleOptimizer alwaysSaveOk
      [[5], [0], [], [], [], [], []] (ResultRefs.mk 0 1 2 3 4 5 6) (by decide) 1 (by decide)⟩

/-! ## Shape-derivative assembly (`derivative_utils.py`,
`DerivativeInfo.grad_surfaces`) -/

/-- `DerivativeSurfaceMesh` (`derivative_utils.py` lines 19-50): `N` surface
elements with centers, scalar areas, unit normals and two perpendicular
(tangent) vectors per element. -/
structure SurfaceMesh (K : Type) (N : ℕ) where
  centers : Fin N → Fin 3 → K
  areas : Fin N → K
  normals : Fin N → Fin 3 → K
  perps1 : Fin N → Fin 3 → K
  perps2 : Fin N → Fin 3 → K

/-- `DerivativeInfo.project_in_basis` (`derivative_utils.py` lines 257-267):
sum over the three Cartesian components of basis coefficient times field
component. -/
def projectInBasis {K : Type} [Field K] (fld : Fin 3 → K) (basis : Fin 3 → K) : K :=
  ∑ d : Fin 3, basis d * fld d

/-- `DerivativeInfo.delta_eps` (`derivative_utils.py` lines 162-164). -/
def deltaEps {K : Type} [Field K] (epsIn epsOut : K) : K := epsIn - epsOut

/-- `DerivativeInfo.delta_eps_inv` (`derivative_utils.py` lines 166-168). -/
def deltaEpsInv {K : Type} [Field K] (epsIn epsOut : K) : K :=
  1 / epsIn - 1 / epsOut

/-- `DerivativeInfo.grad_surfaces` (`derivative_utils.py` lines 170-224),
with the field evaluation at the element centers (the four
`evaluate_flds_at` calls at lines 186-189) supplied as the inputs `eFwdAt`,
`eAdjAt`, `dFwdAt`, `dAdjAt`: project the displacement fields on the
normals and the electric fields on the two tangents, multiply forward by
adjoint, combine `-delta_eps_inv` times the normal product with `delta_eps`
times each tangential product, and scale by the element areas.  Permittivity
may be complex; `K` is any field. -/
def gradSurfaces {K : Type} [Field K] (epsIn epsOut : K) {N : ℕ}
    (mesh : SurfaceMesh K N) (eFwdAt eAdjAt dFwdAt dAdjAt : Fin N → Fin 3 → K) :
    Fin N → K :=
  fun i =>
    let dFwdNorm := projectInBasis (dFwdAt i) (mesh.normals i)
    let dAdjNorm := projectInBasis (dAdjAt i) (mesh.normals i)
    let eFwdPerp1 := projectInBasis (eFwdAt i) (mesh.perps1 i)
    let eAdjPerp1 := projectInBasis (eAdjAt i) (mesh.perps1 i)
    let eFwdPerp2 := projectInBasis (eFwdAt i) (mesh.perps2 i)
    let eAdjPerp2 := projectInBasis (eAdjAt i) (mesh.perps2 i)
    let dDerNorm := dFwdNorm * dAdjNorm
    let eDerPerp1 := eFwdPerp1 * eAdjPerp1
    let eDerPerp2 := eFwdPerp2 * eAdjPerp2
    let vjps := -deltaEpsInv epsIn epsOut * dDerNorm
      + eDerPerp1 * deltaEps epsIn epsOut + eDerPerp2 * deltaEps epsIn epsOut
    mesh.areas i * vjps

/-- A unit-area surface element with normal `(0,0,1)` and tangents
`(1,0,0)`, `(0,1,0)`. -/
def unitMeshZ : SurfaceMesh ℚ 1 :=
  { centers := fun _ _ => 0
    areas := fun _ => 1
    normals := fun _ d => if d = 2 then 1 else 0
    perps1 := fun _ d => if d = 0 then 1 else 0
    perps2 := fun _ d => if d = 1 then 1 else 0 }

/-- The zero field on one element. -/
def zeroFld1 : Fin 1 → Fin 3 → ℚ := fun _ _ => 0

/-- The constant displacement field `(0, 0, 2)` on one element. -/
def dFldConc : Fin 1 → Fin 3 → ℚ := fun _ d => if d = 2 then 2 else 0

/-- C1: for every surface element `i`, the assembled sensitivity equals
`dA_i * (-delta_eps_inv * D_norm_prod_i
+ delta_eps * (E_tan_prod_1_i + E_tan_prod_2_i))`, where the products are
the forward and adjoint fields projected on the element's normal and the two
tangents; and for a unit-area element with normal `(0,0,1)`,
`eps_in = 4`, `eps_out = 1`, `D_fwd = D_adj = (0,0,2)` and zero tangential
electric fields, the sensitivity equals `3`. -/
theorem c1_grad_surfaces {K : Type} [Field K] (epsIn epsOut : K) {N : ℕ}
    (mesh : SurfaceMesh K N) (eF eA dF dA : Fin N → Fin 3 → K) (i : Fin N) :
    gradSurfaces epsIn epsOut mesh eF eA dF dA i =
      mesh.areas i *
        (-(deltaEpsInv epsIn epsOut) *
            (projectInBasis (dF i) (mesh.normals i) *
              projectInBasis (dA i) (mesh.normals i)) +
          deltaEps epsIn epsOut *
            (projectInBasis (eF i) (mesh.perps1 i) *
                projectInBasis (eA i) (mesh.perps1 i) +
              projectInBasis (eF i) (mesh.perps2 i) *
                projectInBasis (eA i) (mesh.perps2 i))) ∧
    gradSurfaces (4 : ℚ) 1 unitMeshZ zeroFld1 zeroFld1 dFldConc dFldConc 0 = 3 := by
  constructor
  · simp only [gradSurfaces]
    ring
  · norm_num [gradSurfaces, projectInBasis, deltaEps, deltaEpsInv, unitMeshZ,
      zeroFld1, dFldConc, Fin.sum_univ_three]

/-! ## Field interpolation (`derivative_utils.py`,
`DerivativeInfo.evaluate_flds_at`) -/

/-- One component of a `ScalarFieldDataArray`: sorted coordinates along the
three spatial axes and the frequency axis, and complex sample values
(rationals here) indexed by `(f, x, y, z)` position. -/
structure FieldComponent where
  xs : List ℚ
  ys : List ℚ
  zs : List ℚ
  fs : List ℚ
  vals : ℕ → ℕ → ℕ → ℕ → ℚ

/-- Failure modes of field evaluation: the `ValueError` that the scipy-backed
linear interpolator raises on an axis with fewer than two samples, and the
configuration error for an axis with no samples at all. -/
inductive InterpError where
  | valueError
  | configError
deriving DecidableEq

/-- Number of entries of `cs` that are at most `q`. -/
def countLE (q : ℚ) : List ℚ → ℕ
  | [] => 0
  | c :: cs => (if c ≤ q then 1 else 0) + countLE q cs

/-- Index of the interpolation segment used for query `q` on sorted
coordinates `cs` (at least two entries): the last segment whose left
endpoint is at most `q`, clamped into the valid segment range — so a query
left of all coordinates uses the first segment and a query right of all
coordinates uses the last one, i.e. linear extrapolation, which is what
`fill_value=None` selects in the scipy-backed interpolation call of
`evaluate_flds_at`. -/
def segIndex (cs : List ℚ) (q : ℚ) : ℕ :=
  min (max (countLE q cs) 1 - 1) (cs.length - 2)

/-- Linear interpolation (and extrapolation) of the samples `f` on the
coordinates `cs` at query `q`. -/
def interp1 (cs : List ℚ) (f : ℕ → ℚ) (q : ℚ) : ℚ :=
  let i := segIndex cs q
  let x0 := cs.getD i 0
  let x1 := cs.getD (i + 1) 0
  f i + (f (i + 1) - f i) * ((q - x0) / (x1 - x0))

/-- `DerivativeInfo.evaluate_flds_at` (`derivative_utils.py` lines 226-255)
for one field component at one query point.  The branch at line 240 that was
meant to treat single-sample axes as constant reads `if False and ...` — it
is dead — so `sum_dims` stays empty and every spatial axis, including axes
with a single sample, is handed to `arr.interp(..., kwargs=dict(fill_value=None))`.
The scipy-backed linear interpolator requires at least two samples per
interpolated axis (it raises a `ValueError` otherwise) and, with
`fill_value=None`, extrapolates out-of-range queries.  After the spatial
interpolation the frequency axis is summed. -/
def evaluateFldAt (fld : FieldComponent) (qx qy qz : ℚ) : Except InterpError ℚ :=
  if fld.xs.length < 2 || fld.ys.length < 2 || fld.zs.length < 2 then
    .error .valueError
  else
    .ok (((List.range fld.fs.length).map (fun fi =>
      interp1 fld.zs (fun zi =>
        interp1 fld.ys (fun yi =>
          interp1 fld.xs (fun xi => fld.vals fi xi yi zi) qx) qy) qz)).sum)

/-- Linear interpolation with single-sample axes treated as constant and
out-of-range queries clamped to the boundary. -/
def clampInterp1 (cs : List ℚ) (f : ℕ → ℚ) (q : ℚ) : ℚ :=
  if cs.length ≤ 1 then f 0
  else interp1 cs f (max (cs.getD 0 0) (min (cs.getD (cs.length - 1) 0) q))

/-- Modelled from the spec: the interpolation behavior the specification
describes for `evaluate_flds_at` — a spatial axis with exactly one sample is
treated as constant (no interpolation, no error, for any query coordinate),
axes with at least two samples use linear interpolation with
clamp-to-boundary fill for out-of-range queries (never extrapolation), a
zero-sample axis is a configuration error, and the frequency axis is
summed. -/
def evaluateFldAtSpec (fld : FieldComponent) (qx qy qz : ℚ) : Except InterpError ℚ :=
  if fld.xs.isEmpty || fld.ys.isEmpty || fld.zs.isEmpty then
    .error .configError
  else
    .ok (((List.range fld.fs.length).map (fun fi =>
      clampInterp1 fld.zs (fun zi =>
        clampInterp1 fld.ys (fun yi =>
          clampInterp1 fld.xs (fun xi => fld.vals fi xi yi zi) qx) qy) qz)).sum)

/-- A field dataset whose `z` axis has exactly one sample, constant value 7. -/
def singleZFld : FieldComponent :=
  { xs := [0, 1], ys := [0, 1], zs := [5], fs := [0], vals := fun _ _ _ _ => 7 }

/-- A field dataset linear in `x` (10 at `x`-index 0, 20 at `x`-index 1),
constant along the other axes. -/
def extrapFld : FieldComponent :=
  { xs := [0, 1], ys := [0, 1], zs := [0, 1], fs := [0],
    vals := fun _ xi _ _ => ((10 * (xi + 1) : ℕ) : ℚ) }

/-- C2, evaluated at the failing inputs: on a dataset whose `z` axis has a
single sample, the code raises (`if False and ...` disabled the constant-axis
branch and the interpolator needs two points per axis) while the specified
behavior returns the constant 7 with no error; and on an out-of-range query
`x = 2` over samples at `x ∈ {0, 1}`, the code extrapolates
(`fill_value=None`) to 30 while the specified clamp-to-boundary behavior
yields the boundary value 20. -/
theorem c2_evaluate_flds_at_code_bug :
    evaluateFldAt singleZFld 0 0 99 = .error .valueError ∧
    evaluateFldAtSpec singleZFld 0 0 99 = .ok 7 ∧
    evaluateFldAt extrapFld 2 0 0 = .ok 30 ∧
    evaluateFldAtSpec extrapFld 2 0 0 = .ok 20 := by
  refine ⟨?_, ?_, ?_, ?_⟩
  · simp [evaluateFldAt, singleZFld]
  · norm_num [evaluateFldAtSpec, singleZFld, clampInterp1, interp1, segIndex, countLE]
  · norm_num [evaluateFldAt, extrapFld, interp1, segIndex, countLE]
  · norm_num [evaluateFldAtSpec, extrapFld, clampInterp1, interp1, segIndex, countLE]

end Tidy3d
